import Mathlib

/-
  Verification of the orchestration core in src/src/crewai/crew.py (class Crew).

  Shallow embedding conventions:
  * Tasks carry a stable numeric id standing for the uuid4 `Task.id`; uuids are
    unique, so Python object identity and pydantic equality on tasks coincide
    with id (plus flag) equality, which is how context references are compared.
  * Agent invocation is abstracted as a function from the task position to
    `Except String TaskOutput` (an agent can fail; failures propagate).
  * Async dispatch returns a handle whose eventual value is the same
    `Except String TaskOutput`; values of handles are only observed at a flush
    barrier, in enqueue (FIFO) order, exactly as `Future.result()` is called in
    `_process_async_tasks`.
  * Machinery with no effect on the claims under verification (telemetry,
    memory, i18n, stdout logging, callbacks, task-level tool mutation for
    worker delegation) is omitted.
-/

set_option linter.unusedVariables false

deriving instance DecidableEq for Except

namespace CrewAI

/-- `TaskOutput` (crewai.tasks.task_output): only the `raw` text matters for
the orchestration claims; the remaining fields ride along with `raw`. -/
structure TaskOutput where
  raw : String
deriving DecidableEq, Repr

/-- A context reference as stored in `Task.context`: the referenced task
object, restricted to the fields the validators read (its id and its
`async_execution` flag). -/
structure ContextRef where
  tid : Nat
  async_execution : Bool
deriving DecidableEq, Repr

/-- A task as seen by the Crew orchestration core: id, async flag, declared
context dependencies, and the assigned agent (None means "use the manager"). -/
structure TaskSpec where
  tid : Nat
  async_execution : Bool
  context : List ContextRef
  agentId : Option Nat
deriving DecidableEq, Repr

/-- Input bindings (the `inputs` dict), modelled as an association list. -/
abbrev Inputs := List (String × String)

/-- One checkpoint-log entry, as written by `Crew._store_execution_log`
(crew.py lines 514-547); the stored output is represented by its raw text. -/
structure LogEntry where
  task_id : Nat
  raw : String
  task_index : Nat
  inputs : Inputs
  was_replayed : Bool
deriving DecidableEq, Repr

/-- `crewai.process.Process`: the two execution topologies. -/
inductive Process where
  | sequential
  | hierarchical
deriving DecidableEq, Repr

/-- A delegation capability: one entry of the tool set produced by
`get_delegation_tools` / `AgentTools(agents).tools()`, recording exactly which
agents it can address. -/
structure DelTool where
  targets : List Nat
deriving DecidableEq, Repr

/-- `BaseAgent.get_delegation_tools(agents)` / `AgentTools(agents=...).tools()`:
a tool set whose capabilities address exactly the given agents. -/
def get_delegation_tools (agents : List Nat) : List DelTool :=
  [DelTool.mk agents]

/-- The distinct fatal errors a run can raise (crew.py raises `ValueError` /
`IndexError` at the corresponding places). -/
inductive RunErr where
  | execFailure : String → RunErr
  | indexOutOfRange : RunErr
  | taskNotFound : RunErr
  | multipleOutputs : RunErr
deriving DecidableEq, Repr

/- ------------------------------------------------------------------
   Construction-time validators (crew.py lines 245-327)
   ------------------------------------------------------------------ -/

/-- Pydantic equality of a task in the list against a context reference,
restricted to the modelled fields (Task ids are uuid4-unique, so this agrees
with `self.tasks[j] == context_task` in the source). -/
def taskMatchesRef (t : TaskSpec) (r : ContextRef) : Bool :=
  t.tid == r.tid && t.async_execution == r.async_execution

/-- The backward scan of
`validate_async_task_cannot_include_sequential_async_tasks_in_context`
(crew.py lines 304-310): `for j in range(i-1, -1, -1)`, raise on
`tasks[j] == context_task`, stop at the first non-async task. Returns
`true` when the scan reaches the dependency (i.e. the ValueError fires). -/
def scanBackFindsDep (tasks : List TaskSpec) (dep : ContextRef) : Nat → Bool
  | 0 => false
  | j + 1 =>
    match tasks.get? j with
    | none => false
    | some t =>
      if taskMatchesRef t dep then true
      else if t.async_execution then scanBackFindsDep tasks dep j
      else false

/-- `Crew.validate_async_task_cannot_include_sequential_async_tasks_in_context`
(crew.py lines 293-311). Returns `true` iff the validator raises. -/
def validate_async_task_context (tasks : List TaskSpec) : Bool :=
  (List.range tasks.length).any (fun i =>
    match tasks.get? i with
    | none => false
    | some t =>
      t.async_execution && !t.context.isEmpty &&
        t.context.any (fun dep =>
          dep.async_execution && scanBackFindsDep tasks dep i))

/-- The `task_indices = {id(task): i for i, task in enumerate(self.tasks)}`
lookup of `validate_context_no_future_tasks`: the position of the task with
the given id (ids are uuid4-unique, so identity lookup is id lookup). -/
def task_index_of (tid : Nat) : List TaskSpec → Option Nat
  | [] => none
  | t :: ts =>
    if t.tid == tid then some 0
    else (task_index_of tid ts).map (fun k => k + 1)

/-- `Crew.validate_context_no_future_tasks` (crew.py lines 313-327).
`task_indices` keys tasks by object identity; with uuid-unique ids that is
id-lookup. A reference whose id is not a task in the list is skipped
(`continue`), and an error is raised only when the referenced position is
strictly greater than the referencing position. Returns `true` iff the
validator raises. -/
def validate_context_no_future_tasks (tasks : List TaskSpec) : Bool :=
  (List.range tasks.length).any (fun i =>
    match tasks.get? i with
    | none => false
    | some t =>
      t.context.any (fun dep =>
        match task_index_of dep.tid tasks with
        | none => false
        | some j => i < j))

/-- `Crew.validate_tasks` (lines 245-256): sequential topology requires an
agent on every task. Returns `true` iff the validator raises. -/
def validate_tasks_missing_agent (process : Process) (tasks : List TaskSpec) : Bool :=
  process == Process.sequential && tasks.any (fun t => t.agentId.isNone)

/-- `Crew.check_tasks_in_hierarchical_process_not_async` (lines 258-270).
Returns `true` iff the validator raises. -/
def validate_no_async_in_hierarchical (process : Process) (tasks : List TaskSpec) : Bool :=
  process == Process.hierarchical && tasks.any (fun t => t.async_execution)

/-- `Crew.validate_end_with_at_most_one_async_task` (lines 272-291): count of
the trailing run of async tasks, traversing backward until a sync task. -/
def trailing_async_count (tasks : List TaskSpec) : Nat :=
  (tasks.reverse.takeWhile (fun t => t.async_execution)).length

/-- Crew construction restricted to the task-list validators, in their source
order (model_validator order in crew.py). An error returns no crew value. -/
def constructCrew (process : Process) (tasks : List TaskSpec) :
    Except String (List TaskSpec) :=
  if validate_tasks_missing_agent process tasks then
    Except.error "missing_agent_in_task"
  else if validate_no_async_in_hierarchical process tasks then
    Except.error "async_execution_in_hierarchical_process"
  else if trailing_async_count tasks > 1 then
    Except.error "async_task_count"
  else if validate_async_task_context tasks then
    Except.error "async_context_dependency"
  else if validate_context_no_future_tasks tasks then
    Except.error "future_task_context"
  else
    Except.ok tasks

/- ------------------------------------------------------------------
   Context resolution and the checkpoint log (crew.py lines 514-547, 638-644)
   ------------------------------------------------------------------ -/

/-- Result slots: `Task.output`, keyed by task id; prepending is overwrite. -/
def setSlot (slots : List (Nat × String)) (tid : Nat) (raw : String) :
    List (Nat × String) :=
  (tid, raw) :: slots

/-- Read a task's current result slot (most recent write wins). -/
def lookupSlot (slots : List (Nat × String)) (tid : Nat) : Option String :=
  (slots.find? (fun p => p.1 == tid)).map (fun p => p.2)

/-- Modelled from the spec:
`crewai.utilities.formatter.aggregate_raw_outputs_from_task_outputs` (module
not under src/) — "concatenate the raw outputs ... in flush order" into one
input blob. -/
def aggregate_raw_outputs_from_task_outputs : List TaskOutput → String
  | [] => ""
  | o :: os => o.raw ++ aggregate_raw_outputs_from_task_outputs os

/-- Modelled from the spec:
`crewai.utilities.formatter.aggregate_raw_outputs_from_tasks` (module not
under src/) — "resolve by looking up each referenced task's current result
... and concatenate their raw outputs". -/
def aggregate_raw_outputs_from_tasks (slots : List (Nat × String)) :
    List ContextRef → String
  | [] => ""
  | r :: rs =>
    ((lookupSlot slots r.tid).getD "") ++ aggregate_raw_outputs_from_tasks slots rs

/-- `Crew._set_context` (crew.py lines 638-644): explicit dependencies if the
task declares any (`if task.context`), else the rolling `task_outputs` list. -/
def set_context (slots : List (Nat × String)) (t : TaskSpec)
    (task_outputs : List TaskOutput) : String :=
  if t.context ≠ [] then aggregate_raw_outputs_from_tasks slots t.context
  else aggregate_raw_outputs_from_task_outputs task_outputs

/-- The append-or-overwrite write of `Crew._store_execution_log`
(crew.py lines 542-547): overwrite in place when the position already has an
entry, else append. -/
def store_execution_log_entry (logs : List LogEntry) (idx : Nat) (e : LogEntry) :
    List LogEntry :=
  if idx < logs.length then logs.set idx e else logs ++ [e]

/- ------------------------------------------------------------------
   The execution engine (crew.py lines 554-665)
   ------------------------------------------------------------------ -/

/-- One dispatch of a task to an agent, as observed by the agent: the position,
the async flag, the context string passed, and the manager's tool set at the
moment of dispatch. -/
structure DispatchEv where
  idx : Nat
  isAsync : Bool
  ctx : String
  mgrTools : List DelTool
deriving DecidableEq, Repr

/-- The engine's mutable state during `_execute_tasks` / `replay_from_task`:
the rolling `task_outputs` list, the pending-async `futures` buffer, the
in-memory `execution_logs` (positionally indexed, mirroring the checkpoint
file), plus observation traces: `logTrace` records every checkpoint write in
event order, `dispatches` every agent dispatch, `seeded` every replay-seeding
assignment `self.tasks[i].output = stored`, `mgrTools` the manager's current
tool set, and `stops` the number of `stop_rpm_counter` calls so far. -/
structure EngineState where
  task_outputs : List TaskOutput
  futures : List (TaskSpec × Except String TaskOutput × Nat)
  execution_logs : List LogEntry
  logTrace : List (Nat × LogEntry)
  dispatches : List DispatchEv
  slots : List (Nat × String)
  seeded : List (Nat × String)
  mgrTools : List DelTool
  stops : Nat
deriving DecidableEq, Repr

/-- `Crew._process_async_tasks` (crew.py lines 652-665): resolve each pending
handle in enqueue order, appending its output to a fresh list and writing its
checkpoint entry at its own position. A failed handle propagates at flush
time, attributed to that task. -/
def process_async_tasks (inputs : Inputs) (was_replayed : Bool) :
    List (TaskSpec × Except String TaskOutput × Nat) → EngineState →
    Except (RunErr × EngineState) EngineState
  | [], s => Except.ok s
  | (t, r, idx) :: fs, s =>
    match r with
    | Except.error m => Except.error (RunErr.execFailure m, s)
    | Except.ok out =>
      let e : LogEntry :=
        { task_id := t.tid, raw := out.raw, task_index := idx,
          inputs := inputs, was_replayed := was_replayed }
      process_async_tasks inputs was_replayed fs
        { s with
          task_outputs := s.task_outputs ++ [out],
          execution_logs := store_execution_log_entry s.execution_logs idx e,
          logTrace := s.logTrace ++ [(idx, e)],
          slots := setSlot s.slots t.tid out.raw }

/-- The flush barrier: `task_outputs = self._process_async_tasks(futures);
futures.clear()` — the rolling list is REPLACED by the flushed batch. -/
def flush_futures (inputs : Inputs) (was_replayed : Bool) (s : EngineState) :
    Except (RunErr × EngineState) EngineState :=
  process_async_tasks inputs was_replayed s.futures
    { s with task_outputs := [], futures := [] }

/-- The body of the dispatch loop of `Crew._execute_tasks` for the task at
position `i` (crew.py lines 561-617). The two hierarchical manager-tool
assignments of lines 569-573 are both performed, the second overwriting the
first whenever a manager is present. The worker-delegation mutation of
`task.tools` (lines 562-567) touches no state any claim observes and is
omitted. -/
def execute_task_step (exec : Nat → Except String TaskOutput) (process : Process)
    (managerPresent : Bool) (agents : List Nat) (inputs : Inputs)
    (s : EngineState) (i : Nat) (t : TaskSpec) :
    Except (RunErr × EngineState) EngineState :=
  let sA :=
    if process = Process.hierarchical ∧ t.agentId.isSome ∧ managerPresent then
      { s with mgrTools := get_delegation_tools t.agentId.toList }
    else s
  let sB :=
    if process = Process.hierarchical ∧ managerPresent then
      { sA with mgrTools := get_delegation_tools agents }
    else sA
  let hasActor : Bool := t.agentId.isSome || managerPresent
  if t.async_execution then
    let ctx := set_context sB.slots t sB.task_outputs
    if hasActor then
      Except.ok
        { sB with
          futures := sB.futures ++ [(t, exec i, i)],
          dispatches := sB.dispatches ++ [DispatchEv.mk i true ctx sB.mgrTools] }
    else Except.ok sB
  else
    match (if sB.futures ≠ [] then flush_futures inputs false sB else Except.ok sB) with
    | Except.error e => Except.error e
    | Except.ok s2 =>
      let ctx := set_context s2.slots t s2.task_outputs
      if hasActor then
        match exec i with
        | Except.error m => Except.error (RunErr.execFailure m, s2)
        | Except.ok out =>
          let e : LogEntry :=
            { task_id := t.tid, raw := out.raw, task_index := i,
              inputs := inputs, was_replayed := false }
          Except.ok
            { s2 with
              task_outputs := [out],
              execution_logs := store_execution_log_entry s2.execution_logs i e,
              logTrace := s2.logTrace ++ [(i, e)],
              slots := setSlot s2.slots t.tid out.raw,
              dispatches := s2.dispatches ++ [DispatchEv.mk i false ctx s2.mgrTools] }
      else Except.ok s2

/-- The `for task_index, task in enumerate(tasks)` loop of `_execute_tasks`. -/
def execute_tasks_loop (exec : Nat → Except String TaskOutput) (process : Process)
    (managerPresent : Bool) (agents : List Nat) (inputs : Inputs) :
    Nat → List TaskSpec → EngineState → Except (RunErr × EngineState) EngineState
  | _, [], s => Except.ok s
  | i, t :: ts, s =>
    match execute_task_step exec process managerPresent agents inputs s i t with
    | Except.error e => Except.error e
    | Except.ok s1 =>
      execute_tasks_loop exec process managerPresent agents inputs (i + 1) ts s1

/-- `Crew._finish_execution` (crew.py lines 891-899): `stop_rpm_counter` is
called exactly when `max_rpm` is configured. -/
def finish_execution (max_rpm : Bool) (stops : Nat) : Nat :=
  if max_rpm then stops + 1 else stops

/-- The initial engine state. For a hierarchical run the manager is assembled
by `_run_hierarchical_process` (lines 818-839) before `_execute_tasks`, with
tools = delegation over the full worker roster. -/
def initState (process : Process) (managerPresent : Bool) (agents : List Nat) :
    EngineState :=
  { task_outputs := [], futures := [], execution_logs := [], logTrace := [],
    dispatches := [], slots := [], seeded := [],
    mgrTools :=
      if process = Process.hierarchical ∧ managerPresent then
        get_delegation_tools agents
      else [],
    stops := 0 }

/-- The successful outcome of a run: the final raw output together with the
final engine state. -/
structure CrewRunOut where
  raw : String
  final_state : EngineState
deriving DecidableEq, Repr

/-- `Crew._execute_tasks` (crew.py lines 554-635): the loop, the trailing
flush, `final_task_output = task_outputs[0]` (IndexError when empty), then
`_finish_execution`. -/
def execute_tasks (exec : Nat → Except String TaskOutput) (process : Process)
    (managerPresent : Bool) (agents : List Nat) (inputs : Inputs)
    (max_rpm : Bool) (tasks : List TaskSpec) :
    Except (RunErr × EngineState) CrewRunOut :=
  let s0 := initState process managerPresent agents
  match execute_tasks_loop exec process managerPresent agents inputs 0 tasks s0 with
  | Except.error e => Except.error e
  | Except.ok s1 =>
    match (if s1.futures ≠ [] then flush_futures inputs false s1 else Except.ok s1) with
    | Except.error e => Except.error e
    | Except.ok s2 =>
      match s2.task_outputs with
      | [] => Except.error (RunErr.indexOutOfRange, s2)
      | out :: _ =>
        Except.ok
          { raw := out.raw
            final_state := { s2 with stops := finish_execution max_rpm s2.stops } }

/-- Number of `stop_rpm_counter` calls observed at the end of a run, on both
the success and the failure path. -/
def runStops : Except (RunErr × EngineState) CrewRunOut → Nat
  | Except.ok r => r.final_state.stops
  | Except.error (_, s) => s.stops

/- ------------------------------------------------------------------
   Replay (crew.py lines 667-797)
   ------------------------------------------------------------------ -/

/-- `Crew._find_task_index` (crew.py lines 667-677): index of the first stored
entry whose task id matches (`next((i for (i, d) in enumerate(stored)
if d["task_id"] == str(task_id)), None)`). -/
def find_task_index (task_id : Nat) : List LogEntry → Option Nat
  | [] => none
  | d :: ds =>
    if d.task_id == task_id then some 0
    else (find_task_index task_id ds).map (fun k => k + 1)

/-- The seeding branch of `replay_from_task` for `task_index < start_index`
(crew.py lines 707-718): synthesize a TaskOutput from the stored entry, set
`self.tasks[task_index].output`, and make the rolling list hold exactly that
output. The seeding assignment is recorded in the `seeded` trace. Positions
before the match are always present in the log (`start_index` was found in
it), so the `none` branch is unreachable when called from `replay_from_task`. -/
def seed_step (stored : List LogEntry) (s : EngineState) (i : Nat) (t : TaskSpec) :
    EngineState :=
  match stored.get? i with
  | some d =>
    { s with
      slots := setSlot s.slots t.tid d.raw,
      task_outputs := [TaskOutput.mk d.raw],
      seeded := s.seeded ++ [(i, d.raw)] }
  | none => s

/-- The execution branch of `replay_from_task` for `task_index >= start_index`
(crew.py lines 719-775): the same dispatch shape as `_execute_tasks` — the two
manager-tool assignments of lines 729-737 (second overwrites first), async
dispatch to the futures buffer, sync dispatch behind the flush barrier — with
`was_replayed=True` on every checkpoint write, and no agent-presence guard
before dispatch. -/
def replay_exec_step (exec : Nat → Except String TaskOutput) (process : Process)
    (managerPresent : Bool) (agents : List Nat) (inputs : Inputs)
    (s : EngineState) (i : Nat) (t : TaskSpec) :
    Except (RunErr × EngineState) EngineState :=
  let sA :=
    if process = Process.hierarchical ∧ t.agentId.isSome ∧ managerPresent then
      { s with mgrTools := get_delegation_tools t.agentId.toList }
    else s
  let sB :=
    if process = Process.hierarchical ∧ managerPresent then
      { sA with mgrTools := get_delegation_tools agents }
    else sA
  if t.async_execution then
    let ctx := set_context sB.slots t sB.task_outputs
    Except.ok
      { sB with
        futures := sB.futures ++ [(t, exec i, i)],
        dispatches := sB.dispatches ++ [DispatchEv.mk i true ctx sB.mgrTools] }
  else
    match (if sB.futures ≠ [] then flush_futures inputs true sB else Except.ok sB) with
    | Except.error e => Except.error e
    | Except.ok s2 =>
      let ctx := set_context s2.slots t s2.task_outputs
      match exec i with
      | Except.error m => Except.error (RunErr.execFailure m, s2)
      | Except.ok out =>
        let e : LogEntry :=
          { task_id := t.tid, raw := out.raw, task_index := i,
            inputs := inputs, was_replayed := true }
        Except.ok
          { s2 with
            task_outputs := [out],
            execution_logs := store_execution_log_entry s2.execution_logs i e,
            logTrace := s2.logTrace ++ [(i, e)],
            slots := setSlot s2.slots t.tid out.raw,
            dispatches := s2.dispatches ++ [DispatchEv.mk i false ctx s2.mgrTools] }

/-- The `for task_index, task in enumerate(self.tasks)` loop of
`replay_from_task` (crew.py lines 706-775): seed below `start`, execute from
`start` on. -/
def replay_loop (exec : Nat → Except String TaskOutput) (process : Process)
    (managerPresent : Bool) (agents : List Nat) (inputs : Inputs)
    (stored : List LogEntry) (start : Nat) :
    Nat → List TaskSpec → EngineState → Except (RunErr × EngineState) EngineState
  | _, [], s => Except.ok s
  | i, t :: ts, s =>
    if i < start then
      replay_loop exec process managerPresent agents inputs stored start (i + 1) ts
        (seed_step stored s i t)
    else
      match replay_exec_step exec process managerPresent agents inputs s i t with
      | Except.error e => Except.error e
      | Except.ok s1 =>
        replay_loop exec process managerPresent agents inputs stored start (i + 1) ts s1

/-- The successful outcome of a replay: final raw output, final state, and the
effective input bindings used for the replay. -/
structure ReplayOut where
  raw : String
  final_state : EngineState
  effective_inputs : Inputs
deriving DecidableEq, Repr

/-- `Crew.replay_from_task` (crew.py lines 679-797): load the stored log,
locate the entry by task id (ValueError when absent), resolve the effective
inputs (caller-supplied inputs override; else the matched entry's stored
bindings), assemble the manager for hierarchical runs
(`_create_manager_agent`, which gives the manager delegation tools over the
roster), run the loop, flush the remaining futures, require exactly one
rolling output, and finish. -/
def replay_from_task (exec : Nat → Except String TaskOutput) (process : Process)
    (managerPresent : Bool) (agents : List Nat) (tasks : List TaskSpec)
    (stored : List LogEntry) (task_id : Nat) (inputs : Option Inputs)
    (max_rpm : Bool) : Except (RunErr × EngineState) ReplayOut :=
  match find_task_index task_id stored with
  | none =>
    Except.error (RunErr.taskNotFound, initState process managerPresent agents)
  | some start =>
    let replay_inputs : Inputs :=
      match inputs with
      | some v => v
      | none =>
        match stored.get? start with
        | some d => d.inputs
        | none => []
    let managerNow := if process = Process.hierarchical then true else managerPresent
    let s0 := initState process managerNow agents
    match replay_loop exec process managerNow agents replay_inputs stored start
        0 tasks s0 with
    | Except.error e => Except.error e
    | Except.ok s1 =>
      match (if s1.futures ≠ [] then flush_futures replay_inputs true s1
             else Except.ok s1) with
      | Except.error e => Except.error e
      | Except.ok s2 =>
        match s2.task_outputs with
        | [out] =>
          Except.ok
            { raw := out.raw
              final_state := { s2 with stops := finish_execution max_rpm s2.stops }
              effective_inputs := replay_inputs }
        | _ => Except.error (RunErr.multipleOutputs, s2)

/- ------------------------------------------------------------------
   Usage aggregation (crew.py lines 901-921)
   ------------------------------------------------------------------ -/

/-- The per-agent resource counters returned by `_token_process.get_summary()`. -/
structure UsageMetrics where
  total_tokens : Nat
  prompt_tokens : Nat
  completion_tokens : Nat
  successful_requests : Nat
deriving DecidableEq, Repr

/-- Pointwise addition of usage counters (`total_usage_metrics[key] +=
token_sum.get(key, 0)` over the four fixed keys). -/
def addUsage (a b : UsageMetrics) : UsageMetrics :=
  { total_tokens := a.total_tokens + b.total_tokens
    prompt_tokens := a.prompt_tokens + b.prompt_tokens
    completion_tokens := a.completion_tokens + b.completion_tokens
    successful_requests := a.successful_requests + b.successful_requests }

/-- The zero-initialised accumulator of `calculate_usage_metrics`. -/
def zeroUsage : UsageMetrics :=
  { total_tokens := 0, prompt_tokens := 0, completion_tokens := 0,
    successful_requests := 0 }

/-- `Crew.calculate_usage_metrics` (crew.py lines 901-921): sum the counters
over the worker agents, then add the manager's when one is present. -/
def calculate_usage_metrics (agents : List UsageMetrics)
    (manager : Option UsageMetrics) : UsageMetrics :=
  let t := agents.foldl addUsage zeroUsage
  match manager with
  | some m => addUsage t m
  | none => t

/- ------------------------------------------------------------------
   Crew.copy and batch fan-out (crew.py lines 439-463, 841-870)
   ------------------------------------------------------------------ -/

/-- Modelled from the spec: the module-level constant `CREW_TASKS_OUTPUT_FILE`
(crewai.utilities.constants, not under src/) — the single fixed path of the
file-backed checkpoint store that `TaskOutputJsonHandler` reads and writes. -/
def CREW_TASKS_OUTPUT_FILE : String := "crew_tasks_output.json"

/-- The identity-bearing resources of one Crew instance. Python object
identities are modelled as natural numbers drawn from an allocation counter;
two resources are shared exactly when they carry the same number, and the
durable checkpoint store is identified by its file path. -/
structure CrewObj where
  agentRefs : List Nat
  taskRefs : List Nat
  rpmRef : Nat
  cacheRef : Nat
  execLogRef : Nat
  outputFile : String
deriving DecidableEq, Repr

/-- All object identities owned by a crew. -/
def CrewObj.refs (c : CrewObj) : List Nat :=
  c.agentRefs ++ c.taskRefs ++ [c.rpmRef, c.cacheRef, c.execLogRef]

/-- Number of fresh identities one `Crew.copy` allocates. -/
def CrewObj.copySize (c : CrewObj) : Nat :=
  c.agentRefs.length + c.taskRefs.length + 3

/-- A freshly constructed crew with `n` agents and `m` tasks: the constructor
(`set_private_attrs`) allocates its RPMController and CacheHandler, the
`execution_logs` list starts as its own object, and the checkpoint store is
the module-level constant path. -/
def CrewObj.new (n m fresh : Nat) : CrewObj :=
  { agentRefs := (List.range n).map (fun k => fresh + k)
    taskRefs := (List.range m).map (fun k => fresh + n + k)
    rpmRef := fresh + n + m
    cacheRef := fresh + n + m + 1
    execLogRef := fresh + n + m + 2
    outputFile := CREW_TASKS_OUTPUT_FILE }

/-- `Crew.copy` (crew.py lines 841-870): agents and tasks are cloned as fresh
objects (`agent.copy()` / `task.copy(cloned_agents)`, modelled from the spec's
deep-clone description since agent.py/task.py are not under src/); the private
run-scoped singletons (`_rpm_controller`, `_cache_handler`, ...) are excluded
from the dump, so the `Crew(**copied_data, ...)` constructor allocates fresh
ones; `model_dump` renders `execution_logs` as plain data, so the copy gets
its own list object. The checkpoint store, however, is not a field at all:
every crew uses `TaskOutputJsonHandler(CREW_TASKS_OUTPUT_FILE)`, the same
module-level path. -/
def CrewObj.copy (c : CrewObj) (fresh : Nat) : CrewObj :=
  CrewObj.new c.agentRefs.length c.taskRefs.length fresh

/-- The two independent copies `kickoff_for_each` makes for a two-element
input list (crew.py lines 451-452), allocated one after the other. -/
def kickoff_for_each_copies (c : CrewObj) (fresh : Nat) : CrewObj × CrewObj :=
  (CrewObj.copy c fresh, CrewObj.copy c (fresh + c.copySize))

/-- No mutable state shared between two crews, as the claim states it: no
common object identity (agents, tasks, rate limiter, cache, in-memory log)
and no common durable checkpoint store. -/
def NoSharedState (x y : CrewObj) : Prop :=
  (∀ r ∈ x.refs, r ∉ y.refs) ∧ x.outputFile ≠ y.outputFile

/- ==================================================================
   Theorems
   ================================================================== -/

theorem foldl_addUsage_fields (l : List UsageMetrics) (z : UsageMetrics) :
    (l.foldl addUsage z).total_tokens
        = z.total_tokens + (l.map (fun u => u.total_tokens)).sum
    ∧ (l.foldl addUsage z).prompt_tokens
        = z.prompt_tokens + (l.map (fun u => u.prompt_tokens)).sum
    ∧ (l.foldl addUsage z).completion_tokens
        = z.completion_tokens + (l.map (fun u => u.completion_tokens)).sum
    ∧ (l.foldl addUsage z).successful_requests
        = z.successful_requests + (l.map (fun u => u.successful_requests)).sum := by
  induction l generalizing z with
  | nil => simp
  | cons a l ih =>
    obtain ⟨h1, h2, h3, h4⟩ := ih (addUsage z a)
    simp only [List.foldl_cons, List.map_cons, List.sum_cons]
    refine ⟨?_, ?_, ?_, ?_⟩
    · rw [h1]; simp only [addUsage]; omega
    · rw [h2]; simp only [addUsage]; omega
    · rw [h3]; simp only [addUsage]; omega
    · rw [h4]; simp only [addUsage]; omega

/-- C7: the crew-level usage total computed by `calculate_usage_metrics`
equals, in each of the four fields, the sum of that field over all worker
agents plus the manager's counters when a manager is present, for all
non-negative integer per-agent counters. -/
theorem usage_metrics_sum (agents : List UsageMetrics)
    (manager : Option UsageMetrics) :
    (calculate_usage_metrics agents manager).total_tokens
        = (agents.map (fun u => u.total_tokens)).sum
          + (manager.map (fun u => u.total_tokens)).getD 0
    ∧ (calculate_usage_metrics agents manager).prompt_tokens
        = (agents.map (fun u => u.prompt_tokens)).sum
          + (manager.map (fun u => u.prompt_tokens)).getD 0
    ∧ (calculate_usage_metrics agents manager).completion_tokens
        = (agents.map (fun u => u.completion_tokens)).sum
          + (manager.map (fun u => u.completion_tokens)).getD 0
    ∧ (calculate_usage_metrics agents manager).successful_requests
        = (agents.map (fun u => u.successful_requests)).sum
          + (manager.map (fun u => u.successful_requests)).getD 0 := by
  obtain ⟨h1, h2, h3, h4⟩ := foldl_addUsage_fields agents zeroUsage
  have g1 : (List.foldl addUsage zeroUsage agents).total_tokens
      = (agents.map (fun u => u.total_tokens)).sum := by rw [h1]; simp [zeroUsage]
  have g2 : (List.foldl addUsage zeroUsage agents).prompt_tokens
      = (agents.map (fun u => u.prompt_tokens)).sum := by rw [h2]; simp [zeroUsage]
  have g3 : (List.foldl addUsage zeroUsage agents).completion_tokens
      = (agents.map (fun u => u.completion_tokens)).sum := by rw [h3]; simp [zeroUsage]
  have g4 : (List.foldl addUsage zeroUsage agents).successful_requests
      = (agents.map (fun u => u.successful_requests)).sum := by rw [h4]; simp [zeroUsage]
  cases manager with
  | none => simp [calculate_usage_metrics, g1, g2, g3, g4]
  | some m => simp [calculate_usage_metrics, addUsage, g1, g2, g3, g4]

theorem mem_new_refs (n m f r : Nat) :
    r ∈ (CrewObj.new n m f).refs ↔ f ≤ r ∧ r < f + (n + m + 3) := by
  simp only [CrewObj.refs, CrewObj.new, List.mem_append, List.mem_map,
    List.mem_range, List.mem_cons, List.mem_singleton, List.not_mem_nil, or_false]
  constructor
  · rintro ((⟨k, hk, rfl⟩ | ⟨k, hk, rfl⟩) | h | h | h) <;> omega
  · rintro ⟨hle, hlt⟩
    rcases Nat.lt_or_ge r (f + n) with h | h
    · exact Or.inl (Or.inl ⟨r - f, by omega, by omega⟩)
    · rcases Nat.lt_or_ge r (f + n + m) with h2 | h2
      · exact Or.inl (Or.inr ⟨r - (f + n), by omega, by omega⟩)
      · right; omega

theorem copy_refs_bounds (c : CrewObj) (fresh r : Nat) :
    r ∈ (CrewObj.copy c fresh).refs ↔ fresh ≤ r ∧ r < fresh + c.copySize := by
  simp only [CrewObj.copy, CrewObj.copySize, mem_new_refs]

/-- C3 (amended): each copy made by `kickoff_for_each` gets fresh agents,
tasks, rate limiter, cache handler, and in-memory execution log — no object
identity is shared between the two copies or with the original crew — but
both copies (and the original) address the SAME durable checkpoint store,
the module-level `CREW_TASKS_OUTPUT_FILE` path. -/
theorem copy_fresh_state_except_log_file (c : CrewObj) (fresh : Nat)
    (hfresh : ∀ r ∈ c.refs, r < fresh) :
    (∀ r ∈ (kickoff_for_each_copies c fresh).1.refs, r ∉ c.refs)
    ∧ (∀ r ∈ (kickoff_for_each_copies c fresh).2.refs, r ∉ c.refs)
    ∧ (∀ r ∈ (kickoff_for_each_copies c fresh).1.refs,
        r ∉ (kickoff_for_each_copies c fresh).2.refs)
    ∧ (kickoff_for_each_copies c fresh).1.outputFile
        = (kickoff_for_each_copies c fresh).2.outputFile := by
  refine ⟨?_, ?_, ?_, rfl⟩
  · intro r hr hrc
    have h1 := (copy_refs_bounds c fresh r).1 hr
    have h2 := hfresh r hrc
    omega
  · intro r hr hrc
    have h1 := (copy_refs_bounds c (fresh + c.copySize) r).1 hr
    have h2 := hfresh r hrc
    omega
  · intro r hr hr2
    have h1 := (copy_refs_bounds c fresh r).1 hr
    have h2 := (copy_refs_bounds c (fresh + c.copySize) r).1 hr2
    omega

theorem copy_fresh_state_except_log_file_witness :
    (∀ r ∈ (CrewObj.new 1 1 0).refs, r < 10)
    ∧ (∀ r ∈ (kickoff_for_each_copies (CrewObj.new 1 1 0) 10).1.refs,
        r ∉ (kickoff_for_each_copies (CrewObj.new 1 1 0) 10).2.refs) :=
  ⟨by decide, (copy_fresh_state_except_log_file (CrewObj.new 1 1 0) 10
      (by decide)).2.2.1⟩

/-- C3 is refuted as stated: the two crew copies made by `kickoff_for_each`
for a two-input batch do NOT have pairwise-unshared mutable state — they share
the durable checkpoint log, because every crew reads and writes the single
module-level `CREW_TASKS_OUTPUT_FILE` path. -/
theorem copies_share_output_file_counterexample :
    ¬ NoSharedState (kickoff_for_each_copies (CrewObj.new 1 1 0) 10).1
        (kickoff_for_each_copies (CrewObj.new 1 1 0) 10).2 :=
  fun h => h.2 rfl

theorem process_async_preserves (inputs : Inputs) (wr : Bool) :
    ∀ (fs : List (TaskSpec × Except String TaskOutput × Nat)) (s : EngineState),
      (∀ s', process_async_tasks inputs wr fs s = Except.ok s' →
        s'.mgrTools = s.mgrTools ∧ s'.dispatches = s.dispatches ∧
        s'.seeded = s.seeded ∧ s'.stops = s.stops)
      ∧ (∀ e s', process_async_tasks inputs wr fs s = Except.error (e, s') →
        s'.mgrTools = s.mgrTools ∧ s'.dispatches = s.dispatches ∧
        s'.seeded = s.seeded ∧ s'.stops = s.stops) := by
  intro fs
  induction fs with
  | nil =>
    intro s
    refine ⟨fun s' h => ?_, fun e s' h => ?_⟩
    · simp only [process_async_tasks] at h
      cases h
      exact ⟨rfl, rfl, rfl, rfl⟩
    · simp only [process_async_tasks] at h
      cases h
  | cons f fs ih =>
    intro s
    obtain ⟨t, r, idx⟩ := f
    cases r with
    | error m =>
      refine ⟨fun s' h => ?_, fun e s' h => ?_⟩
      · simp only [process_async_tasks] at h
        cases h
      · simp only [process_async_tasks] at h
        cases h
        exact ⟨rfl, rfl, rfl, rfl⟩
    | ok out =>
      refine ⟨fun s' h => ?_, fun e s' h => ?_⟩
      · simp only [process_async_tasks] at h
        have H := (ih _).1 s' h
        exact H
      · simp only [process_async_tasks] at h
        have H := (ih _).2 e s' h
        exact H

theorem flush_futures_preserves (inputs : Inputs) (wr : Bool) (s s' : EngineState)
    (h : flush_futures inputs wr s = Except.ok s') :
    s'.mgrTools = s.mgrTools ∧ s'.dispatches = s.dispatches ∧
    s'.seeded = s.seeded ∧ s'.stops = s.stops := by
  have H := (process_async_preserves inputs wr s.futures
    { s with task_outputs := [], futures := [] }).1 s' h
  exact H

theorem flush_futures_preserves_err (inputs : Inputs) (wr : Bool)
    (s : EngineState) (e : RunErr) (s' : EngineState)
    (h : flush_futures inputs wr s = Except.error (e, s')) :
    s'.mgrTools = s.mgrTools ∧ s'.dispatches = s.dispatches ∧
    s'.seeded = s.seeded ∧ s'.stops = s.stops := by
  have H := (process_async_preserves inputs wr s.futures
    { s with task_outputs := [], futures := [] }).2 e s' h
  exact H

theorem execute_task_step_hier_mgr (exec : Nat → Except String TaskOutput)
    (agents : List Nat) (inputs : Inputs) (s : EngineState) (i : Nat)
    (t : TaskSpec) (s' : EngineState)
    (h : execute_task_step exec Process.hierarchical true agents inputs s i t
          = Except.ok s') :
    s'.mgrTools = get_delegation_tools agents ∧
    ∀ ev ∈ s'.dispatches, ev ∈ s.dispatches
      ∨ ev.mgrTools = get_delegation_tools agents := by
  by_cases ha : t.agentId.isSome = true <;>
  by_cases hb : t.async_execution = true <;>
    simp only [execute_task_step, ha, hb, Bool.or_true, true_and, and_true, and_false,
      false_and, and_self, if_true, if_false, ite_true, ite_false, eq_self_iff_true,
      Bool.false_eq_true, not_false_eq_true] at h
  all_goals try (
    cases h
    refine ⟨rfl, ?_⟩
    intro ev hev
    rcases List.mem_append.1 hev with h1 | h1
    · exact Or.inl h1
    · rcases List.mem_singleton.1 h1 with rfl
      exact Or.inr rfl)
  all_goals {
    split at h
    · cases h
    · rename_i s2 heq
      split at h
      · cases h
      · rename_i out hout
        cases h
        have hs2 : s2.mgrTools = get_delegation_tools agents ∧
            s2.dispatches = s.dispatches := by
          split at heq
          · have H := flush_futures_preserves _ _ _ _ heq
            exact ⟨H.1, H.2.1⟩
          · cases heq
            exact ⟨rfl, rfl⟩
        refine ⟨hs2.1, ?_⟩
        intro ev hev
        rcases List.mem_append.1 hev with h1 | h1
        · rw [hs2.2] at h1
          exact Or.inl h1
        · rcases List.mem_singleton.1 h1 with rfl
          exact Or.inr hs2.1 }

theorem execute_tasks_loop_hier_mgr (exec : Nat → Except String TaskOutput)
    (agents : List Nat) (inputs : Inputs) :
    ∀ (ts : List TaskSpec) (i : Nat) (s s' : EngineState),
      execute_tasks_loop exec Process.hierarchical true agents inputs i ts s
          = Except.ok s' →
      (∀ ev ∈ s.dispatches, ev.mgrTools = get_delegation_tools agents) →
      ∀ ev ∈ s'.dispatches, ev.mgrTools = get_delegation_tools agents := by
  intro ts
  induction ts with
  | nil =>
    intro i s s' h hall
    simp only [execute_tasks_loop] at h
    cases h
    exact hall
  | cons t ts ih =>
    intro i s s' h hall
    simp only [execute_tasks_loop] at h
    split at h
    · cases h
    · rename_i s1 heq
      have hstep := execute_task_step_hier_mgr exec agents inputs s i t s1 heq
      refine ih (i + 1) s1 s' h (fun ev hev => ?_)
      rcases hstep.2 ev hev with h1 | h1
      · exact hall ev h1
      · exact h1

/-- C2 (amended): in a hierarchical run, immediately before each dispatch the
manager's tool set equals the delegation capability over the FULL worker
roster and nothing else; the per-task capability to delegate to the task's
assigned agent (line 571) is computed but immediately overwritten by the
full-roster assignment (line 573), so it is never present at dispatch time.
The full-roster set is recomputed from the current roster at every task. -/
theorem manager_tools_full_roster (exec : Nat → Except String TaskOutput)
    (agents : List Nat) (inputs : Inputs) (max_rpm : Bool)
    (tasks : List TaskSpec) (r : CrewRunOut)
    (h : execute_tasks exec Process.hierarchical true agents inputs max_rpm tasks
          = Except.ok r) :
    ∀ ev ∈ r.final_state.dispatches, ev.mgrTools = get_delegation_tools agents := by
  simp only [execute_tasks] at h
  split at h
  · cases h
  · rename_i s1 heq
    have hloop := execute_tasks_loop_hier_mgr exec agents inputs tasks 0 _ s1 heq
      (by intro ev hev; simp [initState] at hev)
    split at h
    · cases h
    · rename_i s2 heq2
      have hs2 : s2.dispatches = s1.dispatches := by
        split at heq2
        · exact (flush_futures_preserves _ _ _ _ heq2).2.1
        · cases heq2; rfl
      split at h
      · cases h
      · cases h
        intro ev hev
        simp only [hs2] at hev
        exact hloop ev hev

/-- The one-task hierarchical crew used to exercise the manager-tool wiring:
two workers, the task assigned to worker 0. -/
def c2tasks : List TaskSpec :=
  [{ tid := 0, async_execution := false, context := [], agentId := some 0 }]

/-- A deterministic hierarchical run of `c2tasks` over roster `[0, 1]`. -/
def c2run : Except (RunErr × EngineState) CrewRunOut :=
  execute_tasks (fun _ => Except.ok (TaskOutput.mk "x")) Process.hierarchical
    true [0, 1] [] false c2tasks

/-- The manager tool set observed at each dispatch of a run. -/
def dispatchToolsOf (r : Except (RunErr × EngineState) CrewRunOut) :
    List (List DelTool) :=
  match r with
  | Except.ok o => o.final_state.dispatches.map (fun ev => ev.mgrTools)
  | Except.error _ => []

/-- C2 is refuted as stated: in the hierarchical run `c2run` the task is
assigned to worker 0, yet at its dispatch the manager's tool set is exactly
the full-roster delegation capability — the capability addressing only the
task's assigned agent (`get_delegation_tools [0]`, assigned at line 571) is
absent, having been overwritten by line 573. -/
theorem manager_tools_counterexample :
    dispatchToolsOf c2run = [[DelTool.mk [0, 1]]]
    ∧ DelTool.mk [0] ∉ [DelTool.mk [0, 1]] := by
  refine ⟨by decide, by decide⟩

theorem manager_tools_full_roster_witness :
    (DispatchEv.mk 0 false "" (get_delegation_tools [0, 1])).mgrTools
      = get_delegation_tools [0, 1] :=
  manager_tools_full_roster (fun _ => Except.ok (TaskOutput.mk "x")) [0, 1] [] false
    c2tasks _ rfl (DispatchEv.mk 0 false "" (get_delegation_tools [0, 1]))
    (by decide)

theorem barrier_ok_preserves (inputs : Inputs) (wr : Bool) (c : Prop)
    [Decidable c] (sB s2 : EngineState)
    (heq : (if c then flush_futures inputs wr sB else Except.ok sB)
          = Except.ok s2) :
    s2.mgrTools = sB.mgrTools ∧ s2.dispatches = sB.dispatches ∧
    s2.seeded = sB.seeded ∧ s2.stops = sB.stops := by
  split at heq
  · exact flush_futures_preserves _ _ _ _ heq
  · cases heq; exact ⟨rfl, rfl, rfl, rfl⟩

theorem barrier_err_preserves (inputs : Inputs) (wr : Bool) (c : Prop)
    [Decidable c] (sB : EngineState) (e : RunErr) (s2 : EngineState)
    (heq : (if c then flush_futures inputs wr sB else Except.ok sB)
          = Except.error (e, s2)) :
    s2.mgrTools = sB.mgrTools ∧ s2.dispatches = sB.dispatches ∧
    s2.seeded = sB.seeded ∧ s2.stops = sB.stops := by
  split at heq
  · exact flush_futures_preserves_err _ _ _ _ _ heq
  · cases heq

theorem execute_task_step_stops_ok (exec : Nat → Except String TaskOutput)
    (process : Process) (mp : Bool) (agents : List Nat) (inputs : Inputs)
    (s : EngineState) (i : Nat) (t : TaskSpec) (s' : EngineState)
    (h : execute_task_step exec process mp agents inputs s i t = Except.ok s') :
    s'.stops = s.stops ∧ s'.seeded = s.seeded := by
  simp only [execute_task_step] at h
  split at h
  · split at h <;> cases h <;> refine ⟨?_, ?_⟩ <;> (repeat' split) <;> rfl
  · split at h
    · cases h
    · rename_i s2 heq
      have HB := barrier_ok_preserves _ _ _ _ _ heq
      split at h
      · split at h
        · cases h
        · cases h
          refine ⟨?_, ?_⟩
          · show s2.stops = _
            rw [HB.2.2.2]
            (repeat' split) <;> rfl
          · show s2.seeded = _
            rw [HB.2.2.1]
            (repeat' split) <;> rfl
      · cases h
        refine ⟨?_, ?_⟩
        · rw [HB.2.2.2]
          (repeat' split) <;> rfl
        · rw [HB.2.2.1]
          (repeat' split) <;> rfl

theorem execute_task_step_stops_err (exec : Nat → Except String TaskOutput)
    (process : Process) (mp : Bool) (agents : List Nat) (inputs : Inputs)
    (s : EngineState) (i : Nat) (t : TaskSpec) (e : RunErr) (s' : EngineState)
    (h : execute_task_step exec process mp agents inputs s i t
          = Except.error (e, s')) :
    s'.stops = s.stops ∧ s'.seeded = s.seeded := by
  simp only [execute_task_step] at h
  split at h
  · split at h <;> cases h
  · split at h
    · rename_i e2 heq
      obtain ⟨e2a, e2b⟩ := e2
      cases h
      have HB := barrier_err_preserves _ _ _ _ _ _ heq
      refine ⟨?_, ?_⟩
      · rw [HB.2.2.2]
        (repeat' split) <;> rfl
      · rw [HB.2.2.1]
        (repeat' split) <;> rfl
    · rename_i s2 heq
      have HB := barrier_ok_preserves _ _ _ _ _ heq
      split at h
      · split at h
        · cases h
          refine ⟨?_, ?_⟩
          · rw [HB.2.2.2]
            (repeat' split) <;> rfl
          · rw [HB.2.2.1]
            (repeat' split) <;> rfl
        · cases h
      · cases h

theorem execute_tasks_loop_stops (exec : Nat → Except String TaskOutput)
    (process : Process) (mp : Bool) (agents : List Nat) (inputs : Inputs) :
    ∀ (ts : List TaskSpec) (i : Nat) (s : EngineState),
      (∀ s', execute_tasks_loop exec process mp agents inputs i ts s = Except.ok s' →
          s'.stops = s.stops ∧ s'.seeded = s.seeded)
      ∧ (∀ e s', execute_tasks_loop exec process mp agents inputs i ts s
            = Except.error (e, s') →
          s'.stops = s.stops ∧ s'.seeded = s.seeded) := by
  intro ts
  induction ts with
  | nil =>
    intro i s
    refine ⟨fun s' h => ?_, fun e s' h => ?_⟩
    · simp only [execute_tasks_loop] at h
      cases h
      exact ⟨rfl, rfl⟩
    · simp only [execute_tasks_loop] at h
      cases h
  | cons t ts ih =>
    intro i s
    refine ⟨fun s' h => ?_, fun e s' h => ?_⟩
    · simp only [execute_tasks_loop] at h
      split at h
      · cases h
      · rename_i s1 heq
        have h1 := (ih (i + 1) s1).1 s' h
        have h2 := execute_task_step_stops_ok _ _ _ _ _ _ _ _ _ heq
        exact ⟨h1.1.trans h2.1, h1.2.trans h2.2⟩
    · simp only [execute_tasks_loop] at h
      split at h
      · rename_i e0 heq
        obtain ⟨ea, eb⟩ := e0
        cases h
        exact execute_task_step_stops_err _ _ _ _ _ _ _ _ _ _ heq
      · rename_i s1 heq
        have h1 := (ih (i + 1) s1).2 e s' h
        have h2 := execute_task_step_stops_ok _ _ _ _ _ _ _ _ _ heq
        exact ⟨h1.1.trans h2.1, h1.2.trans h2.2⟩

/-- C8 (amended): the rate limiter's stop operation (`stop_rpm_counter`, via
`_finish_execution`) is invoked exactly once when a run completes successfully
and `max_rpm` is configured, and zero times when `max_rpm` is not configured;
when the run aborts with a fatal agent-invocation failure the stop operation
is NOT invoked at all — the dispatch loop has no finally-handler, and
`_finish_execution` is only reached on the success path. -/
theorem rpm_stop_on_success_only (exec : Nat → Except String TaskOutput)
    (process : Process) (mp : Bool) (agents : List Nat) (inputs : Inputs)
    (max_rpm : Bool) (tasks : List TaskSpec) :
    (∀ r, execute_tasks exec process mp agents inputs max_rpm tasks = Except.ok r →
        r.final_state.stops = (if max_rpm then 1 else 0))
    ∧ (∀ e s, execute_tasks exec process mp agents inputs max_rpm tasks
          = Except.error (e, s) → s.stops = 0) := by
  constructor
  · intro r h
    simp only [execute_tasks] at h
    split at h
    · cases h
    · rename_i s1 heq
      have h1 := (execute_tasks_loop_stops exec process mp agents inputs tasks 0
        (initState process mp agents)).1 s1 heq
      split at h
      · cases h
      · rename_i s2 heq2
        have h2 := barrier_ok_preserves _ _ _ _ _ heq2
        split at h
        · cases h
        · cases h
          have hz : s2.stops = 0 := by rw [h2.2.2.2, h1.1]; rfl
          show finish_execution max_rpm s2.stops = _
          rw [finish_execution, hz]
  · intro e s h
    simp only [execute_tasks] at h
    split at h
    · rename_i e0 heq
      obtain ⟨ea, eb⟩ := e0
      cases h
      have h1 := (execute_tasks_loop_stops exec process mp agents inputs tasks 0
        (initState process mp agents)).2 _ _ heq
      exact h1.1.trans rfl
    · rename_i s1 heq
      have h1 := (execute_tasks_loop_stops exec process mp agents inputs tasks 0
        (initState process mp agents)).1 s1 heq
      split at h
      · rename_i e0 heq2
        obtain ⟨ea, eb⟩ := e0
        cases h
        have h2 := barrier_err_preserves _ _ _ _ _ _ heq2
        rw [h2.2.2.2, h1.1]
        rfl
      · rename_i s2 heq2
        have h2 := barrier_ok_preserves _ _ _ _ _ heq2
        split at h
        · cases h
          rw [h2.2.2.2, h1.1]
          rfl
        · cases h

/-- A one-task crew whose agent invocation fails fatally. -/
def c8tasks : List TaskSpec :=
  [{ tid := 0, async_execution := false, context := [], agentId := some 0 }]

/-- A sequential run of `c8tasks` with `max_rpm` configured, whose single
agent invocation raises. -/
def c8run : Except (RunErr × EngineState) CrewRunOut :=
  execute_tasks (fun _ => Except.error "agent failure") Process.sequential
    false [0] [] true c8tasks

/-- Whether a run aborted with a fatal error. -/
def runAborted : Except (RunErr × EngineState) CrewRunOut → Bool
  | Except.error _ => true
  | Except.ok _ => false

/-- C8 is refuted as stated: in the run `c8run` the crew has `max_rpm` set and
aborts with a fatal agent-invocation failure, and the rate limiter's stop
operation is invoked zero times, not once — there is no finally-handler
around the dispatch loop. -/
theorem rpm_stop_not_called_on_failure :
    runAborted c8run = true ∧ runStops c8run = 0 ∧ runStops c8run ≠ 1 := by
  refine ⟨by decide, by decide, by decide⟩

/-- A successful sequential run of `c8tasks` with `max_rpm` configured. -/
def c8okrun : Except (RunErr × EngineState) CrewRunOut :=
  execute_tasks (fun _ => Except.ok (TaskOutput.mk "y")) Process.sequential
    false [0] [] true c8tasks

theorem rpm_stop_on_success_only_witness : runStops c8okrun = 1 :=
  (rpm_stop_on_success_only (fun _ => Except.ok (TaskOutput.mk "y"))
    Process.sequential false [0] [] true c8tasks).1 _ rfl

theorem find_task_index_none_iff (task_id : Nat) :
    ∀ stored : List LogEntry,
      find_task_index task_id stored = none ↔ ∀ d ∈ stored, d.task_id ≠ task_id := by
  intro stored
  induction stored with
  | nil => simp [find_task_index]
  | cons d ds ih =>
    by_cases hd : d.task_id = task_id
    · simp [find_task_index, hd]
    · simp only [find_task_index, beq_iff_eq, if_neg hd, List.mem_cons]
      constructor
      · intro h x hx
        rcases hx with rfl | hx
        · exact hd
        · rcases Option.map_eq_none'.1 h with h2
          exact (ih.1 h2) x hx
      · intro h
        rw [Option.map_eq_none']
        exact ih.2 (fun x hx => h x (Or.inr hx))

theorem process_async_error_shape (inputs : Inputs) (wr : Bool) :
    ∀ (fs : List (TaskSpec × Except String TaskOutput × Nat)) (s : EngineState)
      (e : RunErr) (s' : EngineState),
      process_async_tasks inputs wr fs s = Except.error (e, s') →
      ∃ m, e = RunErr.execFailure m := by
  intro fs
  induction fs with
  | nil =>
    intro s e s' h
    simp only [process_async_tasks] at h
    cases h
  | cons f fs ih =>
    intro s e s' h
    obtain ⟨t, r, idx⟩ := f
    cases r with
    | error m =>
      simp only [process_async_tasks] at h
      cases h
      exact ⟨m, rfl⟩
    | ok out =>
      simp only [process_async_tasks] at h
      exact ih _ e s' h

theorem replay_exec_step_effects (exec : Nat → Except String TaskOutput)
    (process : Process) (mp : Bool) (agents : List Nat) (inputs : Inputs)
    (s : EngineState) (i : Nat) (t : TaskSpec) (s' : EngineState)
    (h : replay_exec_step exec process mp agents inputs s i t = Except.ok s') :
    s'.seeded = s.seeded ∧
    ∀ ev ∈ s'.dispatches, ev ∈ s.dispatches ∨ ev.idx = i := by
  rcases Decidable.em (process = Process.hierarchical ∧ t.agentId.isSome = true
      ∧ mp = true) with hp1 | hp1 <;>
  rcases Decidable.em (process = Process.hierarchical ∧ mp = true) with hp2 | hp2 <;>
  (first | have e1 := eq_false hp1 | have e1 := eq_true hp1) <;>
  (first | have e2 := eq_false hp2 | have e2 := eq_true hp2) <;>
  simp only [replay_exec_step, e1, e2, ite_true, ite_false] at h <;>
  · split at h
    · cases h
      refine ⟨rfl, fun ev hev => ?_⟩
      rcases List.mem_append.1 hev with h1 | h1
      · exact Or.inl h1
      · rcases List.mem_singleton.1 h1 with rfl
        exact Or.inr rfl
    · split at h
      · cases h
      · rename_i s2 heq
        have HB := barrier_ok_preserves _ _ _ _ _ heq
        split at h
        · cases h
        · cases h
          refine ⟨HB.2.2.1, fun ev hev => ?_⟩
          rcases List.mem_append.1 hev with h1 | h1
          · rw [HB.2.1] at h1
            exact Or.inl h1
          · rcases List.mem_singleton.1 h1 with rfl
            exact Or.inr rfl

theorem replay_exec_step_error_shape (exec : Nat → Except String TaskOutput)
    (process : Process) (mp : Bool) (agents : List Nat) (inputs : Inputs)
    (s : EngineState) (i : Nat) (t : TaskSpec) (e : RunErr) (s' : EngineState)
    (h : replay_exec_step exec process mp agents inputs s i t
          = Except.error (e, s')) :
    ∃ m, e = RunErr.execFailure m := by
  rcases Decidable.em (process = Process.hierarchical ∧ t.agentId.isSome = true
      ∧ mp = true) with hp1 | hp1 <;>
  rcases Decidable.em (process = Process.hierarchical ∧ mp = true) with hp2 | hp2 <;>
  (first | have e1 := eq_false hp1 | have e1 := eq_true hp1) <;>
  (first | have e2 := eq_false hp2 | have e2 := eq_true hp2) <;>
  simp only [replay_exec_step, e1, e2, ite_true, ite_false] at h <;>
  · split at h
    · cases h
    · split at h
      · rename_i e2p heq
        obtain ⟨ea, eb⟩ := e2p
        cases h
        split at heq
        · exact process_async_error_shape _ _ _ _ _ _ heq
        · cases heq
      · rename_i s2 heq
        split at h
        · rename_i m hm
          cases h
          exact ⟨m, rfl⟩
        · cases h

theorem replay_loop_seeded_mono (exec : Nat → Except String TaskOutput)
    (process : Process) (mp : Bool) (agents : List Nat) (inputs : Inputs)
    (stored : List LogEntry) (start : Nat) :
    ∀ (ts : List TaskSpec) (i : Nat) (s s' : EngineState),
      replay_loop exec process mp agents inputs stored start i ts s = Except.ok s' →
      ∀ x ∈ s.seeded, x ∈ s'.seeded := by
  intro ts
  induction ts with
  | nil =>
    intro i s s' h x hx
    simp only [replay_loop] at h
    cases h
    exact hx
  | cons t ts ih =>
    intro i s s' h x hx
    simp only [replay_loop] at h
    split at h
    · refine ih (i + 1) _ s' h x ?_
      simp only [seed_step]
      split
      · simp only [List.mem_append]
        exact Or.inl hx
      · exact hx
    · split at h
      · cases h
      · rename_i s1 heq
        have HS := (replay_exec_step_effects _ _ _ _ _ _ _ _ _ heq).1
        refine ih (i + 1) s1 s' h x ?_
        rw [HS]
        exact hx

theorem replay_loop_dispatch_idx (exec : Nat → Except String TaskOutput)
    (process : Process) (mp : Bool) (agents : List Nat) (inputs : Inputs)
    (stored : List LogEntry) (start : Nat) :
    ∀ (ts : List TaskSpec) (i : Nat) (s s' : EngineState),
      replay_loop exec process mp agents inputs stored start i ts s = Except.ok s' →
      ∀ ev ∈ s'.dispatches, ev ∈ s.dispatches ∨ start ≤ ev.idx := by
  intro ts
  induction ts with
  | nil =>
    intro i s s' h ev hev
    simp only [replay_loop] at h
    cases h
    exact Or.inl hev
  | cons t ts ih =>
    intro i s s' h ev hev
    simp only [replay_loop] at h
    split at h
    · rcases ih (i + 1) _ s' h ev hev with h1 | h1
      · simp only [seed_step] at h1
        split at h1
        · exact Or.inl h1
        · exact Or.inl h1
      · exact Or.inr h1
    · rename_i hge
      split at h
      · cases h
      · rename_i s1 heq
        rcases ih (i + 1) s1 s' h ev hev with h1 | h1
        · rcases (replay_exec_step_effects _ _ _ _ _ _ _ _ _ heq).2 ev h1 with h2 | h2
          · exact Or.inl h2
          · right
            omega
        · exact Or.inr h1

theorem replay_loop_seeds (exec : Nat → Except String TaskOutput)
    (process : Process) (mp : Bool) (agents : List Nat) (inputs : Inputs)
    (stored : List LogEntry) (start : Nat) :
    ∀ (ts : List TaskSpec) (i : Nat) (s s' : EngineState),
      replay_loop exec process mp agents inputs stored start i ts s = Except.ok s' →
      ∀ j d, i ≤ j → j < start → j < i + ts.length → stored.get? j = some d →
        (j, d.raw) ∈ s'.seeded := by
  intro ts
  induction ts with
  | nil =>
    intro i s s' h j d hij hjs hjl hget
    simp only [List.length_nil] at hjl
    omega
  | cons t ts ih =>
    intro i s s' h j d hij hjs hjl hget
    simp only [replay_loop] at h
    split at h
    · rcases Nat.eq_or_lt_of_le hij with heqij | hlt
      · cases heqij
        refine replay_loop_seeded_mono exec process mp agents inputs stored start
          ts (i + 1) _ s' h (i, d.raw) ?_
        rw [List.get?_eq_getElem?] at hget
        simp [seed_step, hget]
      · exact ih (i + 1) _ s' h j d hlt hjs (by simp at hjl ⊢; omega) hget
    · rename_i hge
      omega

theorem replay_loop_error_shape (exec : Nat → Except String TaskOutput)
    (process : Process) (mp : Bool) (agents : List Nat) (inputs : Inputs)
    (stored : List LogEntry) (start : Nat) :
    ∀ (ts : List TaskSpec) (i : Nat) (s : EngineState) (e : RunErr)
      (s' : EngineState),
      replay_loop exec process mp agents inputs stored start i ts s
          = Except.error (e, s') →
      ∃ m, e = RunErr.execFailure m := by
  intro ts
  induction ts with
  | nil =>
    intro i s e s' h
    simp only [replay_loop] at h
    cases h
  | cons t ts ih =>
    intro i s e s' h
    simp only [replay_loop] at h
    split at h
    · exact ih (i + 1) _ e s' h
    · split at h
      · rename_i e0 heq
        obtain ⟨ea, eb⟩ := e0
        cases h
        exact replay_exec_step_error_shape _ _ _ _ _ _ _ _ _ _ heq
      · rename_i s1 heq
        exact ih (i + 1) s1 e s' h

/-- C9: `replay_from_task` raises the not-found error exactly when no stored
log entry's task id equals the requested id; when an entry at position `start`
matches, every task at a position strictly before `start` is seeded from its
stored log entry (its stored raw output is assigned to the task's result slot)
and is never dispatched to an agent — every dispatch during the replay is at a
position ≥ `start`; and the effective input bindings are the caller-supplied
inputs when given, falling back to the bindings stored in the matched entry
only when the caller supplies none. -/
theorem replay_from_task_spec (exec : Nat → Except String TaskOutput)
    (process : Process) (mp : Bool) (agents : List Nat) (tasks : List TaskSpec)
    (stored : List LogEntry) (task_id : Nat) (inputs : Option Inputs)
    (max_rpm : Bool) :
    ((∃ s, replay_from_task exec process mp agents tasks stored task_id inputs
          max_rpm = Except.error (RunErr.taskNotFound, s))
      ↔ ∀ d ∈ stored, d.task_id ≠ task_id)
    ∧ (∀ start, find_task_index task_id stored = some start →
        ∀ r, replay_from_task exec process mp agents tasks stored task_id inputs
            max_rpm = Except.ok r →
          (∀ ev ∈ r.final_state.dispatches, start ≤ ev.idx)
          ∧ (∀ j d, j < start → j < tasks.length → stored.get? j = some d →
              (j, d.raw) ∈ r.final_state.seeded)
          ∧ r.effective_inputs = (match inputs with
              | some v => v
              | none => (match stored.get? start with
                  | some d => d.inputs
                  | none => []))) := by
  constructor
  · constructor
    · rintro ⟨s, hs⟩
      cases hfind : find_task_index task_id stored with
      | none => exact (find_task_index_none_iff task_id stored).1 hfind
      | some start =>
        exfalso
        simp only [replay_from_task, hfind] at hs
        split at hs
        · rename_i e0 heq
          obtain ⟨ea, eb⟩ := e0
          rcases replay_loop_error_shape _ _ _ _ _ _ _ _ _ _ _ _ heq with ⟨m, hm⟩
          cases hs
          exact RunErr.noConfusion hm
        · rename_i s1 heq
          split at hs
          · rename_i e0 heq2
            obtain ⟨ea, eb⟩ := e0
            cases hs
            split at heq2
            · rcases process_async_error_shape _ _ _ _ _ _ heq2 with ⟨m, hm⟩
              exact RunErr.noConfusion hm
            · cases heq2
          · rename_i s2 heq2
            split at hs
            · cases hs
            · simp at hs
    · intro hall
      have hfind := (find_task_index_none_iff task_id stored).2 hall
      exact ⟨initState process mp agents, by simp [replay_from_task, hfind]⟩
  · intro start hfind r hr
    simp only [replay_from_task, hfind] at hr
    split at hr
    · cases hr
    · rename_i s1 heq
      split at hr
      · cases hr
      · rename_i s2 heq2
        have HB := barrier_ok_preserves _ _ _ _ _ heq2
        split at hr
        · rename_i out houts
          cases hr
          refine ⟨?_, ?_, rfl⟩
          · intro ev hev
            have hev2 : ev ∈ s1.dispatches := by
              rw [← HB.2.1]
              exact hev
            rcases replay_loop_dispatch_idx _ _ _ _ _ _ _ _ _ _ _ heq ev hev2
              with h1 | h1
            · simp [initState] at h1
            · exact h1
          · intro j d hjs hjl hget
            have hseed := replay_loop_seeds _ _ _ _ _ _ _ _ _ _ _ heq j d
              (Nat.zero_le j) hjs (by omega) hget
            show (j, d.raw) ∈ s2.seeded
            rw [HB.2.2.1]
            exact hseed
        · cases hr

/-- A replay scenario: one stored entry for task id 7 with stored input
bindings, and a one-task list for the same task. -/
def c9stored : List LogEntry :=
  [{ task_id := 7, raw := "old", task_index := 0,
     inputs := [("k", "v")], was_replayed := false }]

/-- The task list replayed in the `c9` scenario. -/
def c9tasks : List TaskSpec :=
  [{ tid := 7, async_execution := false, context := [], agentId := some 0 }]

/-- A deterministic replay of `c9tasks` from task id 7 with no caller inputs. -/
def c9run : Except (RunErr × EngineState) ReplayOut :=
  replay_from_task (fun _ => Except.ok (TaskOutput.mk "new")) Process.sequential
    false [0] c9tasks c9stored 7 none false

/-- The effective input bindings a replay resolved. -/
def replayEffInputs : Except (RunErr × EngineState) ReplayOut → Inputs
  | Except.ok r => r.effective_inputs
  | Except.error _ => []

theorem replay_from_task_spec_witness :
    replayEffInputs c9run = [("k", "v")] := by
  have H := (replay_from_task_spec (fun _ => Except.ok (TaskOutput.mk "new"))
    Process.sequential false [0] c9tasks c9stored 7 none false).2 0 rfl _ rfl
  exact H.2.2

/-- C10: (i) in the kickoff dispatch loop, immediately after a synchronous
task completes the rolling result list contains exactly that task's single
output; (ii) the same holds on the replay path; (iii) the final CrewOutput is
always built from element 0 of the rolling result list (`task_outputs[0]`);
(iv) on an empty task list the run fails with the index error rather than
returning a result. -/
theorem sync_singleton_invariant :
    (∀ (exec : Nat → Except String TaskOutput) (process : Process) (mp : Bool)
        (agents : List Nat) (inputs : Inputs) (s : EngineState) (i : Nat)
        (t : TaskSpec) (out : TaskOutput) (s' : EngineState),
        t.async_execution = false →
        (t.agentId.isSome || mp) = true →
        exec i = Except.ok out →
        execute_task_step exec process mp agents inputs s i t = Except.ok s' →
        s'.task_outputs = [out])
    ∧ (∀ (exec : Nat → Except String TaskOutput) (process : Process) (mp : Bool)
        (agents : List Nat) (inputs : Inputs) (s : EngineState) (i : Nat)
        (t : TaskSpec) (out : TaskOutput) (s' : EngineState),
        t.async_execution = false →
        exec i = Except.ok out →
        replay_exec_step exec process mp agents inputs s i t = Except.ok s' →
        s'.task_outputs = [out])
    ∧ (∀ (exec : Nat → Except String TaskOutput) (process : Process) (mp : Bool)
        (agents : List Nat) (inputs : Inputs) (max_rpm : Bool)
        (tasks : List TaskSpec) (r : CrewRunOut),
        execute_tasks exec process mp agents inputs max_rpm tasks = Except.ok r →
        (r.final_state.task_outputs.map TaskOutput.raw).head? = some r.raw)
    ∧ (∀ (exec : Nat → Except String TaskOutput) (process : Process) (mp : Bool)
        (agents : List Nat) (inputs : Inputs) (max_rpm : Bool),
        execute_tasks exec process mp agents inputs max_rpm ([] : List TaskSpec)
          = Except.error (RunErr.indexOutOfRange, initState process mp agents)) := by
  refine ⟨?_, ?_, ?_, ?_⟩
  · intro exec process mp agents inputs s i t out s' hasync hactor hexec h
    rcases Decidable.em (process = Process.hierarchical ∧ t.agentId.isSome = true
        ∧ mp = true) with hp1 | hp1 <;>
    rcases Decidable.em (process = Process.hierarchical ∧ mp = true) with hp2 | hp2 <;>
    (first | have e1 := eq_false hp1 | have e1 := eq_true hp1) <;>
    (first | have e2 := eq_false hp2 | have e2 := eq_true hp2) <;>
    simp only [execute_task_step, e1, e2, hasync, hactor, hexec,
      Bool.false_eq_true, ite_true, ite_false, if_false, if_true,
      eq_self_iff_true] at h <;>
    · split at h
      · cases h
      · cases h
        rfl
  · intro exec process mp agents inputs s i t out s' hasync hexec h
    rcases Decidable.em (process = Process.hierarchical ∧ t.agentId.isSome = true
        ∧ mp = true) with hp1 | hp1 <;>
    rcases Decidable.em (process = Process.hierarchical ∧ mp = true) with hp2 | hp2 <;>
    (first | have e1 := eq_false hp1 | have e1 := eq_true hp1) <;>
    (first | have e2 := eq_false hp2 | have e2 := eq_true hp2) <;>
    simp only [replay_exec_step, e1, e2, hasync, hexec,
      Bool.false_eq_true, ite_true, ite_false, if_false, if_true,
      eq_self_iff_true] at h <;>
    · split at h
      · cases h
      · cases h
        rfl
  · intro exec process mp agents inputs max_rpm tasks r h
    simp only [execute_tasks] at h
    split at h
    · cases h
    · rename_i s1 heq
      split at h
      · cases h
      · rename_i s2 heq2
        split at h
        · cases h
        · rename_i out os houts
          cases h
          show ((s2.task_outputs.map TaskOutput.raw).head? = _)
          rw [houts]
          rfl
  · intro exec process mp agents inputs max_rpm
    rfl

/-- The rolling result list after one engine step. -/
def stepTaskOutputs : Except (RunErr × EngineState) EngineState → List TaskOutput
  | Except.ok s => s.task_outputs
  | Except.error _ => []

theorem sync_singleton_invariant_witness :
    stepTaskOutputs (execute_task_step (fun _ => Except.ok (TaskOutput.mk "w"))
        Process.sequential false [] [] (initState Process.sequential false []) 0
        { tid := 0, async_execution := false, context := [], agentId := some 0 })
      = [TaskOutput.mk "w"] := by
  have H := (sync_singleton_invariant).1 (fun _ => Except.ok (TaskOutput.mk "w"))
    Process.sequential false [] [] (initState Process.sequential false []) 0
    { tid := 0, async_execution := false, context := [], agentId := some 0 }
    (TaskOutput.mk "w") _ rfl rfl rfl rfl
  exact H

/-- C1 (amended): for a task that declares no explicit context dependencies,
the context string passed to its agent is the concatenation of the raw outputs
of the results CURRENTLY in the rolling `task_outputs` buffer — not of all
results flushed so far in the run. The buffer is replaced, not extended: after
a synchronous task completes it holds exactly that task's single output
(`task_outputs = [task_output]`), and an async dispatch reads the buffer
as-is, without flushing. -/
theorem context_uses_rolling_buffer :
    (∀ (exec : Nat → Except String TaskOutput) (process : Process) (mp : Bool)
        (agents : List Nat) (inputs : Inputs) (s : EngineState) (i : Nat)
        (t : TaskSpec) (out : TaskOutput) (s' : EngineState),
        t.context = [] →
        t.async_execution = false →
        (t.agentId.isSome || mp) = true →
        s.futures = [] →
        exec i = Except.ok out →
        execute_task_step exec process mp agents inputs s i t = Except.ok s' →
        s'.dispatches.map (fun ev => (ev.idx, ev.isAsync, ev.ctx))
          = s.dispatches.map (fun ev => (ev.idx, ev.isAsync, ev.ctx))
            ++ [(i, false, aggregate_raw_outputs_from_task_outputs s.task_outputs)]
        ∧ s'.task_outputs = [out])
    ∧ (∀ (exec : Nat → Except String TaskOutput) (process : Process) (mp : Bool)
        (agents : List Nat) (inputs : Inputs) (s : EngineState) (i : Nat)
        (t : TaskSpec) (s' : EngineState),
        t.context = [] →
        t.async_execution = true →
        (t.agentId.isSome || mp) = true →
        execute_task_step exec process mp agents inputs s i t = Except.ok s' →
        s'.dispatches.map (fun ev => (ev.idx, ev.isAsync, ev.ctx))
          = s.dispatches.map (fun ev => (ev.idx, ev.isAsync, ev.ctx))
            ++ [(i, true, aggregate_raw_outputs_from_task_outputs s.task_outputs)]
        ∧ s'.task_outputs = s.task_outputs) := by
  constructor
  · intro exec process mp agents inputs s i t out s' hctx hasync hactor hfut hexec h
    rcases Decidable.em (process = Process.hierarchical ∧ t.agentId.isSome = true
        ∧ mp = true) with hp1 | hp1 <;>
    rcases Decidable.em (process = Process.hierarchical ∧ mp = true) with hp2 | hp2 <;>
    (first | have e1 := eq_false hp1 | have e1 := eq_true hp1) <;>
    (first | have e2 := eq_false hp2 | have e2 := eq_true hp2) <;>
    simp only [execute_task_step, e1, e2, hasync, hactor, hexec, hfut,
      Bool.false_eq_true, ite_true, ite_false, if_false, if_true, ne_eq,
      not_true_eq_false, not_false_eq_true, eq_self_iff_true] at h <;>
    · cases h
      refine ⟨?_, rfl⟩
      simp [set_context, hctx]
  · intro exec process mp agents inputs s i t s' hctx hasync hactor h
    rcases Decidable.em (process = Process.hierarchical ∧ t.agentId.isSome = true
        ∧ mp = true) with hp1 | hp1 <;>
    rcases Decidable.em (process = Process.hierarchical ∧ mp = true) with hp2 | hp2 <;>
    (first | have e1 := eq_false hp1 | have e1 := eq_true hp1) <;>
    (first | have e2 := eq_false hp2 | have e2 := eq_true hp2) <;>
    simp only [execute_task_step, e1, e2, hasync, hactor,
      ite_true, ite_false, if_false, if_true, eq_self_iff_true] at h <;>
    · cases h
      refine ⟨?_, rfl⟩
      simp [set_context, hctx]

/-- The (position, async flag, context) triples of the dispatches after one
engine step. -/
def stepDispatchTrace : Except (RunErr × EngineState) EngineState →
    List (Nat × Bool × String)
  | Except.ok s => s.dispatches.map (fun ev => (ev.idx, ev.isAsync, ev.ctx))
  | Except.error _ => []

theorem context_uses_rolling_buffer_witness :
    stepDispatchTrace (execute_task_step (fun _ => Except.ok (TaskOutput.mk "w"))
        Process.sequential false [] [] (initState Process.sequential false []) 0
        { tid := 0, async_execution := false, context := [], agentId := some 0 })
      = [(0, false, "")] :=
  ((context_uses_rolling_buffer).1 (fun _ => Except.ok (TaskOutput.mk "w"))
      Process.sequential false [] [] (initState Process.sequential false []) 0
      { tid := 0, async_execution := false, context := [], agentId := some 0 }
      (TaskOutput.mk "w") _ rfl rfl rfl rfl rfl rfl).1

/-- The three-synchronous-task crew exercising the rolling-buffer semantics. -/
def c1tasks : List TaskSpec :=
  [{ tid := 0, async_execution := false, context := [], agentId := some 0 },
   { tid := 1, async_execution := false, context := [], agentId := some 0 },
   { tid := 2, async_execution := false, context := [], agentId := some 0 }]

/-- Deterministic agents producing "a", "b", "c" at positions 0, 1, 2. -/
def c1exec : Nat → Except String TaskOutput :=
  fun i => Except.ok (TaskOutput.mk (if i = 0 then "a" else if i = 1 then "b" else "c"))

/-- The sequential run of `c1tasks`. -/
def c1run : Except (RunErr × EngineState) CrewRunOut :=
  execute_tasks c1exec Process.sequential false [0] [] false c1tasks

/-- The (position, context) pairs of every dispatch of a run. -/
def dispatchCtxs : Except (RunErr × EngineState) CrewRunOut → List (Nat × String)
  | Except.ok r => r.final_state.dispatches.map (fun ev => (ev.idx, ev.ctx))
  | Except.error _ => []

/-- C1 is refuted as stated: in the run of three synchronous tasks with no
declared context, the context passed to the task at position 2 is "b" — only
the most recently flushed result — whereas the concatenation of the raw
outputs of ALL results flushed so far ("a" then "b", in flush order) would be
"ab". -/
theorem context_not_all_flushed_counterexample :
    dispatchCtxs c1run = [(0, ""), (1, "a"), (2, "b")]
    ∧ ("b" : String) ≠ "a" ++ "b" := by
  exact ⟨by decide, by decide⟩

/-- C4: for the task list [A(async), B(async), C(sync)] with no declared
contexts, the checkpoint log receives A's entry at position 0 and then B's at
position 1 — in enqueue order, both before C's entry at position 2 — and the
context passed to C is the aggregation of both A's and B's outputs, in that
order. -/
theorem flush_barrier_order (a b c : String) :
    (match execute_tasks
        (fun i => Except.ok (TaskOutput.mk (if i = 0 then a else if i = 1 then b else c)))
        Process.sequential false [0] [] false
        [{ tid := 0, async_execution := true, context := [], agentId := some 0 },
         { tid := 1, async_execution := true, context := [], agentId := some 0 },
         { tid := 2, async_execution := false, context := [], agentId := some 0 }] with
      | Except.ok r =>
          r.final_state.logTrace.map (fun p => (p.1, p.2.task_id, p.2.raw))
            = [(0, 0, a), (1, 1, b), (2, 2, c)]
          ∧ r.final_state.dispatches.map (fun ev => (ev.idx, ev.ctx))
            = [(0, ""), (1, ""),
               (2, aggregate_raw_outputs_from_task_outputs
                     [TaskOutput.mk a, TaskOutput.mk b])]
      | Except.error _ => False) := by
  constructor <;> rfl

/-- The async-context data race the spec's rule 4 forbids: an asynchronous
task at position `i` lists among its context dependencies an asynchronous
task sitting at an earlier position `j`, with no synchronous task at any
position strictly between `j` and `i`. -/
def asyncContextRace (tasks : List TaskSpec) : Prop :=
  ∃ i j ti tj, j < i ∧ tasks.get? i = some ti ∧ tasks.get? j = some tj ∧
    ti.async_execution = true ∧
    (∃ dep ∈ ti.context, dep.async_execution = true ∧ taskMatchesRef tj dep = true) ∧
    ∀ k tk, j < k → k < i → tasks.get? k = some tk → tk.async_execution = true

theorem scanBackFindsDep_iff (tasks : List TaskSpec) (dep : ContextRef) :
    ∀ i, i ≤ tasks.length →
      (scanBackFindsDep tasks dep i = true ↔
        ∃ j tj, j < i ∧ tasks.get? j = some tj ∧ taskMatchesRef tj dep = true ∧
          ∀ k tk, j < k → k < i → tasks.get? k = some tk →
            tk.async_execution = true) := by
  intro i
  induction i with
  | zero =>
    intro _
    simp [scanBackFindsDep]
  | succ i ih =>
    intro hle
    have hlt : i < tasks.length := by omega
    obtain ⟨t, ht⟩ : ∃ t, tasks.get? i = some t :=
      ⟨tasks.get ⟨i, hlt⟩, List.get?_eq_get hlt⟩
    simp only [scanBackFindsDep, ht]
    by_cases hm : taskMatchesRef t dep = true
    · simp only [hm, eq_self_iff_true, ite_true, if_true, true_iff]
      refine ⟨i, t, Nat.lt_succ_self i, ht, hm, ?_⟩
      intro k tk h1 h2 _
      omega
    · have hm' : taskMatchesRef t dep = false := by
        cases hmm : taskMatchesRef t dep
        · rfl
        · exact absurd hmm hm
      simp only [hm', Bool.false_eq_true, ite_false, if_false]
      by_cases ha : t.async_execution = true
      · simp only [ha, eq_self_iff_true, ite_true, if_true]
        rw [ih (by omega)]
        constructor
        · rintro ⟨j, tj, hji, htj, hmj, hbet⟩
          refine ⟨j, tj, by omega, htj, hmj, ?_⟩
          intro k tk h1 h2 hk
          rcases Nat.lt_or_ge k i with h3 | h3
          · exact hbet k tk h1 h3 hk
          · have hki : k = i := by omega
            subst hki
            rw [ht] at hk
            cases hk
            exact ha
        · rintro ⟨j, tj, hji, htj, hmj, hbet⟩
          have hji' : j < i := by
            rcases Nat.lt_or_ge j i with h3 | h3
            · exact h3
            · exfalso
              have hjeq : j = i := by omega
              subst hjeq
              rw [ht] at htj
              cases htj
              exact absurd hmj hm
          exact ⟨j, tj, hji', htj, hmj,
            fun k tk h1 h2 hk => hbet k tk h1 (by omega) hk⟩
      · have ha' : t.async_execution = false := by
          cases haa : t.async_execution
          · rfl
          · exact absurd haa ha
        simp only [ha', Bool.false_eq_true, ite_false, if_false, false_iff]
        rintro ⟨j, tj, hji, htj, hmj, hbet⟩
        rcases Nat.lt_or_ge j i with h3 | h3
        · have hcontra := hbet i t h3 (Nat.lt_succ_self i) ht
          rw [ha'] at hcontra
          cases hcontra
        · have hjeq : j = i := by omega
          subst hjeq
          rw [ht] at htj
          cases htj
          exact absurd hmj hm

/-- C5: the async-context-isolation validator raises exactly when some
asynchronous task lists an asynchronous task among its context dependencies
with no synchronous task at a position strictly between the dependency and
the dependent task; and whenever that condition holds, crew construction
fails — no crew value is returned. -/
theorem async_context_validation_iff (tasks : List TaskSpec) :
    (validate_async_task_context tasks = true ↔ asyncContextRace tasks)
    ∧ (asyncContextRace tasks →
        ∀ (process : Process) (out : List TaskSpec),
          constructCrew process tasks ≠ Except.ok out) := by
  have hiff : validate_async_task_context tasks = true ↔ asyncContextRace tasks := by
    unfold validate_async_task_context asyncContextRace
    rw [List.any_eq_true]
    constructor
    · rintro ⟨i, hi, hbody⟩
      rw [List.mem_range] at hi
      match hti : tasks.get? i with
      | none =>
        rw [hti] at hbody
        cases hbody
      | some ti =>
        rw [hti] at hbody
        simp only [Bool.and_eq_true, List.any_eq_true] at hbody
        obtain ⟨⟨hasync, hne⟩, dep, hdep, hdepb⟩ := hbody
        obtain ⟨hdepasync, hscan⟩ := hdepb
        rcases (scanBackFindsDep_iff tasks dep i (le_of_lt hi)).1 hscan
          with ⟨j, tj, hji, htj, hmatch, hbet⟩
        exact ⟨i, j, ti, tj, hji, hti, htj, hasync,
          ⟨dep, hdep, hdepasync, hmatch⟩, hbet⟩
    · rintro ⟨i, j, ti, tj, hji, hti, htj, hasync,
        ⟨dep, hdep, hdepasync, hmatch⟩, hbet⟩
      have hilen : i < tasks.length := by
        rcases List.get?_eq_some.1 hti with ⟨h, _⟩
        exact h
      refine ⟨i, List.mem_range.2 hilen, ?_⟩
      rw [hti]
      simp only [Bool.and_eq_true, List.any_eq_true]
      refine ⟨⟨hasync, ?_⟩, dep, hdep, hdepasync,
        (scanBackFindsDep_iff tasks dep i (le_of_lt hilen)).2
          ⟨j, tj, hji, htj, hmatch, hbet⟩⟩
      cases hc : ti.context with
      | nil =>
        rw [hc] at hdep
        cases hdep
      | cons x xs =>
        simp [hc]
  refine ⟨hiff, fun hrace process out heq => ?_⟩
  have hv := hiff.2 hrace
  unfold constructCrew at heq
  split_ifs at heq with h1 h2 h3

/-- A crew exhibiting the async-context race: task 1 is asynchronous and
lists the asynchronous task 0 in its context, with nothing between them. -/
def c5tasks : List TaskSpec :=
  [{ tid := 0, async_execution := true, context := [], agentId := some 0 },
   { tid := 1, async_execution := true,
     context := [{ tid := 0, async_execution := true }], agentId := some 0 }]

theorem async_context_validation_iff_witness :
    validate_async_task_context c5tasks = true
    ∧ constructCrew Process.sequential c5tasks ≠ Except.ok c5tasks :=
  ⟨by decide,
   (async_context_validation_iff c5tasks).2
     ⟨1, 0, { tid := 1, async_execution := true,
              context := [{ tid := 0, async_execution := true }], agentId := some 0 },
         { tid := 0, async_execution := true, context := [], agentId := some 0 },
       Nat.zero_lt_one, rfl, rfl, rfl,
       ⟨{ tid := 0, async_execution := true }, by decide, rfl, rfl⟩,
       fun k tk h1 h2 hk => by omega⟩
     Process.sequential c5tasks⟩

theorem task_index_of_spec (tid : Nat) :
    ∀ (tasks : List TaskSpec) (j : Nat),
      task_index_of tid tasks = some j →
      ∃ tj, tasks.get? j = some tj ∧ tj.tid = tid := by
  intro tasks
  induction tasks with
  | nil =>
    intro j h
    simp [task_index_of] at h
  | cons t ts ih =>
    intro j h
    simp only [task_index_of, beq_iff_eq] at h
    split at h
    · cases h
      rename_i htid
      exact ⟨t, rfl, htid⟩
    · rcases Option.map_eq_some'.1 h with ⟨k, hk, rfl⟩
      rcases ih k hk with ⟨tj, htj, htid⟩
      exact ⟨tj, htj, htid⟩

theorem task_index_of_complete (tid : Nat) :
    ∀ (tasks : List TaskSpec) (j : Nat) (tj : TaskSpec),
      (tasks.map TaskSpec.tid).Nodup →
      tasks.get? j = some tj → tj.tid = tid →
      task_index_of tid tasks = some j := by
  intro tasks
  induction tasks with
  | nil =>
    intro j tj _ h _
    simp at h
  | cons t ts ih =>
    intro j tj hnodup hget htid
    simp only [List.map_cons, List.nodup_cons] at hnodup
    cases j with
    | zero =>
      simp only [List.get?] at hget
      cases hget
      simp [task_index_of, htid]
    | succ k =>
      simp only [List.get?] at hget
      have hmem : tj ∈ ts := by
        rw [List.get?_eq_some] at hget
        rcases hget with ⟨hlen, rfl⟩
        exact List.get_mem ts _ _
      have hne : t.tid ≠ tid := by
        intro hcontra
        refine hnodup.1 ?_
        rw [hcontra, ← htid]
        exact List.mem_map_of_mem TaskSpec.tid hmem
      simp only [task_index_of, beq_iff_eq, if_neg hne]
      rw [ih k tj hnodup.2 hget htid]
      rfl

/-- The condition the no-future-context validator actually enforces: a
context reference to a task IN the list sitting at a strictly greater
position. -/
def futureContextViolation (tasks : List TaskSpec) : Prop :=
  ∃ i j ti tj, tasks.get? i = some ti ∧ tasks.get? j = some tj ∧
    (∃ dep ∈ ti.context, dep.tid = tj.tid) ∧ i < j

/-- C6 (amended): for a task list with distinct task ids, the
no-future-context validator raises exactly when some task's context reference
points to a task in the list at a position STRICTLY GREATER than the
referencing task's own position. A task referencing itself (equal position,
not greater) or referencing a task not in the list is silently skipped and
does not make construction fail. -/
theorem no_future_context_iff (tasks : List TaskSpec)
    (hnodup : (tasks.map TaskSpec.tid).Nodup) :
    validate_context_no_future_tasks tasks = true ↔ futureContextViolation tasks := by
  unfold validate_context_no_future_tasks futureContextViolation
  rw [List.any_eq_true]
  constructor
  · rintro ⟨i, hi, hbody⟩
    rw [List.mem_range] at hi
    match hti : tasks.get? i with
    | none =>
      rw [hti] at hbody
      cases hbody
    | some ti =>
      rw [hti] at hbody
      rw [List.any_eq_true] at hbody
      rcases hbody with ⟨dep, hdep, hdepb⟩
      match hidx : task_index_of dep.tid tasks with
      | none =>
        rw [hidx] at hdepb
        cases hdepb
      | some j =>
        rw [hidx] at hdepb
        rcases task_index_of_spec dep.tid tasks j hidx with ⟨tj, htj, htid⟩
        exact ⟨i, j, ti, tj, hti, htj, ⟨dep, hdep, htid.symm⟩,
          of_decide_eq_true hdepb⟩
  · rintro ⟨i, j, ti, tj, hti, htj, ⟨dep, hdep, htid⟩, hij⟩
    have hilen : i < tasks.length := by
      rcases List.get?_eq_some.1 hti with ⟨h, _⟩
      exact h
    refine ⟨i, List.mem_range.2 hilen, ?_⟩
    rw [hti, List.any_eq_true]
    refine ⟨dep, hdep, ?_⟩
    rw [task_index_of_complete dep.tid tasks j tj hnodup htj htid.symm]
    exact decide_eq_true hij

/-- A task list with a genuine forward context reference: task 0 references
task 1. -/
def c6ftasks : List TaskSpec :=
  [{ tid := 0, async_execution := false,
     context := [{ tid := 1, async_execution := false }], agentId := some 0 },
   { tid := 1, async_execution := false, context := [], agentId := some 0 }]

theorem no_future_context_iff_witness :
    validate_context_no_future_tasks c6ftasks = true :=
  (no_future_context_iff c6ftasks (by decide)).2
    ⟨0, 1,
     { tid := 0, async_execution := false,
       context := [{ tid := 1, async_execution := false }], agentId := some 0 },
     { tid := 1, async_execution := false, context := [], agentId := some 0 },
     rfl, rfl,
     ⟨{ tid := 1, async_execution := false }, by decide, rfl⟩,
     Nat.zero_lt_one⟩

/-- A task referencing itself in its context. -/
def c6selftasks : List TaskSpec :=
  [{ tid := 0, async_execution := false,
     context := [{ tid := 0, async_execution := false }], agentId := some 0 }]

/-- A task referencing a task id that is not in the list at all. -/
def c6outtasks : List TaskSpec :=
  [{ tid := 0, async_execution := false,
     context := [{ tid := 99, async_execution := false }], agentId := some 0 }]

/-- C6 is refuted as stated: a task whose context references itself, and a
task whose context references a task absent from the list, both pass the
no-future-context validator, and crew construction SUCCEEDS on both — whereas
the claim requires a configuration error whenever a context reference does
not point to a strictly earlier position. -/
theorem self_reference_allowed_counterexample :
    validate_context_no_future_tasks c6selftasks = false
    ∧ constructCrew Process.sequential c6selftasks = Except.ok c6selftasks
    ∧ validate_context_no_future_tasks c6outtasks = false
    ∧ constructCrew Process.sequential c6outtasks = Except.ok c6outtasks := by
  refine ⟨by decide, by decide, by decide, by decide⟩

end CrewAI
